import Mathlib

/-!
Verification of the sermon-search core pipeline: a shallow embedding of the
repository's intent extractor, name matcher, scoring engine, ranking pipeline
and pagination/display logic, with theorems settling the specification claims.

Python strings are modelled as Lean `String`; the handful of Python string
operations the code uses (`lower`, `strip`, `replace`, `split`) are given
executable Lean counterparts with the same semantics.  The external fuzzy
similarity metric (`thefuzz`'s `partial_ratio` / `ratio`, an opaque library
returning scores on the 0-100 scale) is threaded through as a function
parameter, as is the external JSON parser of the intent extractor: the
theorems hold for every choice of these externals, and concrete executable
instantiations are supplied for witnesses.
-/

namespace SermonSearch

/-- Python whitespace test used by `str.strip()` / `str.split()`. -/
def wsB (c : Char) : Bool :=
  c == ' ' || c == '\t' || c == '\n' || c == '\r' || c == '\x0b' || c == '\x0c'

/-- Python `str.lower()` (ASCII case folding, as `Char.toLower`). -/
def pyLower (s : String) : String := ⟨s.data.map Char.toLower⟩

/-- Python `str.strip()` on a character list: drop leading and trailing whitespace. -/
def pyStripL (l : List Char) : List Char :=
  ((l.dropWhile wsB).reverse.dropWhile wsB).reverse

/-- Python `str.strip()`. -/
def pyStrip (s : String) : String := ⟨pyStripL s.data⟩

/-- Does `pat` occur at the very start of `s`? -/
def leadsWith : List Char → List Char → Bool
  | [], _ => true
  | _ :: _, [] => false
  | p :: ps, c :: cs => p == c && leadsWith ps cs

/-- Does `pat` occur anywhere (as a contiguous run) in `s`? -/
def occursIn (pat : List Char) : List Char → Bool
  | [] => pat.isEmpty
  | c :: cs => leadsWith pat (c :: cs) || occursIn pat cs

/-- Fuelled worker for Python `str.replace`: replaces each non-overlapping
occurrence of `old` (nonempty) by `new`, left to right.  Fuel bounds the
number of steps; each step consumes at least one character, so fuel equal to
the length of the string fully processes it. -/
def replFuel : Nat → List Char → List Char → List Char → List Char
  | 0, _, _, s => s
  | fuel + 1, old, new, s =>
    match s with
    | [] => []
    | c :: rest =>
      if leadsWith old (c :: rest) then
        new ++ replFuel fuel old new (rest.drop (old.length - 1))
      else
        c :: replFuel fuel old new rest

/-- Python `s.replace(old, new)` (the code never calls it with an empty `old`;
for an empty `old` we return `s` unchanged). -/
def pyReplace (s old new : String) : String :=
  if old = "" then s else ⟨replFuel s.data.length old.data new.data s.data⟩

/-- Split a character list on `','`, keeping empty fields, as Python
`str.split(",")`. -/
def splitComma : List Char → List (List Char)
  | [] => [[]]
  | c :: cs =>
    let r := splitComma cs
    if c == ',' then [] :: r
    else
      match r with
      | [] => [[c]]
      | w :: ws => (c :: w) :: ws

/-- Split on whitespace runs discarding empties, as Python `str.split()`. -/
def splitWs : List Char → List (List Char)
  | [] => []
  | c :: cs =>
    let r := splitWs cs
    if wsB c then r
    else
      match cs with
      | [] => [[c]]
      | d :: _ =>
        if wsB d then [c] :: r
        else
          match r with
          | [] => [[c]]
          | w :: ws => (c :: w) :: ws

/-! ### Data model

`Row` models one catalog record (a row of the loaded dataframe): `idx` is the
pandas index, `date` is `some d` for a parsed `Date` cell and `none` for `NaT`.
`SRow` is a scored row as produced by the keyword passes (`match_score` and
`match_type` columns added). -/

structure Row where
  idx : Nat
  title : String
  preacher : String
  date : Option Int
deriving DecidableEq

structure SRow where
  row : Row
  match_score : Nat
  match_type : String
deriving DecidableEq

/-- The search-intent dictionary as consumed by `search_sermons` via `.get`:
`none` models both an absent key and a JSON `null` value (these behave
identically through every `.get`/truthiness use in the function).  A date
bound is `none` when absent/falsy, `some none` when supplied but unparsable
by `pd.to_datetime` (the `except: pass` path), and `some (some d)` when it
parses to `d`. -/
structure Params where
  keywords : Option String
  synonyms : Option String
  preacher : Option String
  start_date : Option (Option Int)
  end_date : Option (Option Int)
  limit : Option Int
  sort : Option String
deriving DecidableEq

/-! ### Name Matcher (backend.py `check_name_match`) -/

/-- The fixed honorific-title table of `check_name_match`, in source order. -/
def titles : List String :=
  ["pastor", "apostle", "rev", "reverend", "prophet", "evangelist",
   "min", "minister", "dr", "mr", "mrs", "pst"]

/-- The fixed alias table of `check_name_match`. -/
def aliasLookup (q : String) : Option String :=
  if q = "dami" then some "damilola"
  else if q = "temi" then some "temitope"
  else if q = "ibk" then some "ibukun"
  else if q = "pst" then some "pastor"
  else none

/-- The title-stripping loop: for each title in order, replace every
occurrence of the title followed by a space by the empty string, then strip. -/
def stripTitles (s : String) : String :=
  titles.foldl (fun acc ti => pyStrip (pyReplace acc (ti ++ " ") "")) s

/-- The fully normalized candidate string `t_clean` of `check_name_match`. -/
def t_cleanOf (dbName : String) : String := stripTitles (pyLower dbName)

/-- The normalized query string `q_raw` of `check_name_match`
(lowercased and stripped; never title-stripped). -/
def qRawOf (query : String) : String := pyStrip (pyLower query)

/-- backend.py `check_name_match`, parametric in the two fuzzy metrics
(`simP` = `fuzz.partial_ratio`, `simF` = `fuzz.ratio`). -/
def check_name_match (simP simF : String → String → Nat)
    (query dbName : String) : Bool :=
  if query = "" || dbName = "" then false
  else
    let q_raw := qRawOf query
    let t_clean := t_cleanOf dbName
    if 95 ≤ simP q_raw t_clean then true
    else
      let aliasHit :=
        match aliasLookup q_raw with
        | some qe => decide (80 ≤ simP qe t_clean)
        | none => false
      if aliasHit then true
      else if (splitWs t_clean.data).contains q_raw.data then true
      else if q_raw.length ≤ 5 then decide (95 ≤ simF q_raw t_clean)
      else decide (75 ≤ simP q_raw t_clean)

/-! ### Scoring Engine (backend.py `score_rows`) -/

/-- The fixed stop-word set of the keyword logic. -/
def stop_words : List String :=
  ["message", "messages", "sermon", "sermons", "preaching", "preached",
   "series", "audio", "mp3", "living", "walking"]

/-- The cleaned topic list: replace `" and "` by `","`, split on commas,
strip and lowercase each entry, and keep entries not in the stop-word set
(empty entries are kept, exactly as the source comprehension does). -/
def topicListOf (k : String) : List String :=
  (((splitComma (pyReplace k " and " ",").data).map
      (fun cs => pyLower (pyStrip ⟨cs⟩))).filter
    (fun t => ¬ stop_words.contains t))

/-- Per-row total score: sum over the topic list of the fuzzy score of the
topic against the (lowercased) title, counting only scores above 80. -/
def rowScore (simP : String → String → Nat) (topics : List String)
    (title : String) : Nat :=
  topics.foldl (fun acc t => if 80 < simP t title then acc + simP t title else acc) 0

/-- Number of topics clearing the threshold against the (lowercased) title;
the match count of the spec's ScoredRecord, derived from the same loop. -/
def matchCountOf (simP : String → String → Nat) (topics : List String)
    (title : String) : Nat :=
  topics.countP (fun t => 80 < simP t title)

/-- The topic list actually used for an optional keyword string: empty when
the string is absent/null, empty, or the literal "none" (case-insensitive). -/
def topicsOfOpt (kw : Option String) : List String :=
  match kw with
  | none => []
  | some k => if k = "" || pyLower k = "none" then [] else topicListOf k

/-- backend.py `score_rows`: score every row of `rows` against the keyword
phrase, keep rows with positive score in input order, and stamp the label. -/
def score_rows (simP : String → String → Nat) (rows : List Row)
    (kw : Option String) (label : String) : List SRow :=
  match kw with
  | none => []
  | some k =>
    if k = "" || pyLower k = "none" then []
    else
      let topics := topicListOf k
      if topics.isEmpty then []
      else
        ((rows.map (fun r =>
            ({ row := r, match_score := rowScore simP topics (pyLower r.title),
               match_type := label } : SRow))).filter
          (fun s => 0 < s.match_score))

/-! ### Ranking Pipeline (backend.py `search_sermons`) -/

/-- Date comparison `row.Date >= bound` (a missing date, `NaT`, compares false). -/
def dateGe (d : Option Int) (bound : Int) : Bool :=
  match d with
  | none => false
  | some x => bound ≤ x

/-- Date comparison `row.Date <= bound` (a missing date, `NaT`, compares false). -/
def dateLe (d : Option Int) (bound : Int) : Bool :=
  match d with
  | none => false
  | some x => x ≤ bound

/-- The hard filters of `search_sermons`: date range, then preacher via the
Name Matcher (skipped when the preacher query is absent, empty, or "none"). -/
def filteredRows (simP simF : String → String → Nat) (p : Params)
    (df : List Row) : List Row :=
  let f1 :=
    match p.start_date with
    | some (some d) => df.filter (fun r => dateGe r.date d)
    | _ => df
  let f2 :=
    match p.end_date with
    | some (some d) => f1.filter (fun r => dateLe r.date d)
    | _ => f1
  match p.preacher with
  | some q =>
    if q ≠ "" ∧ pyLower q ≠ "none" then
      f2.filter (fun r => check_name_match simP simF q r.preacher)
    else f2
  | none => f2

/-- The Exact pass: score the filtered rows with the primary keywords. -/
def resultsExact (simP simF : String → String → Nat) (p : Params)
    (df : List Row) : List SRow :=
  score_rows simP (filteredRows simP simF p df) p.keywords "Exact"

/-- Python truthiness of the synonyms string (`None` and `""` are falsy). -/
def truthyOpt : Option String → Bool
  | none => false
  | some s => s ≠ ""

/-- The Suggested pass: runs only when the Exact pass yielded fewer than 10
rows and the synonyms string is truthy; rows already present in the Exact
pass (same pandas index) are removed. -/
def resultsSuggested (simP simF : String → String → Nat) (p : Params)
    (df : List Row) : List SRow :=
  let ex := resultsExact simP simF p df
  if ex.length < 10 ∧ truthyOpt p.synonyms then
    let sg := score_rows simP (filteredRows simP simF p df) p.synonyms "Suggested"
    if ex.isEmpty then sg
    else sg.filter (fun s => ! ex.any (fun e => e.row.idx == s.row.idx))
  else []

/-- Is the primary keyword string blank in the sense of the fallback test
(`not primary_keywords or primary_keywords.lower() == "none"`)? -/
def keywordsBlank : Option String → Bool
  | none => true
  | some k => k = "" || pyLower k = "none"

/-- The combined, not yet sorted result list: the fallback pass (all filtered
rows stamped Exact/100) when both passes are empty and the keywords are
blank, otherwise Exact followed by Suggested. -/
def combinedResults (simP simF : String → String → Nat) (p : Params)
    (df : List Row) : List SRow :=
  let ex := resultsExact simP simF p df
  let sg := resultsSuggested simP simF p df
  if ex.isEmpty ∧ sg.isEmpty ∧ keywordsBlank p.keywords then
    (filteredRows simP simF p df).map
      (fun r => { row := r, match_score := 100, match_type := "Exact" })
  else ex ++ sg

/-! ### Sort keys

`sort_values(by=['Date'], ascending=[False])` and
`sort_values(by=['type_rank','match_score','Date'], ascending=[True,False,False])`
with missing values placed last (pandas `na_position='last'`).  Each key is
encoded so that ascending lexicographic comparison realizes the pandas order:
a missing date gets flag 1 (after every present date, whose flag is 0), and
descending columns are negated. -/

/-- 0 for a present date, 1 for a missing one (missing sorts last). -/
def dateFlag : Option Int → Nat
  | some _ => 0
  | none => 1

/-- Negated date value for descending comparison (0 for a missing date). -/
def dateNeg : Option Int → Int
  | some x => -x
  | none => 0

/-- `type_map = {"Exact": 1, "Suggested": 2}`; any other label would be `NaN`
and sort last, encoded as 3 (only the two labels above ever occur). -/
def typeRankNum (t : String) : Nat :=
  if t = "Exact" then 1 else if t = "Suggested" then 2 else 3

/-- Date-descending order (missing dates last): the `sort="newest"` order. -/
def newestR (a b : SRow) : Prop :=
  dateFlag a.row.date < dateFlag b.row.date ∨
    (dateFlag a.row.date = dateFlag b.row.date ∧ dateNeg a.row.date ≤ dateNeg b.row.date)

/-- The relevance sort key: type rank ascending, score descending,
date descending with missing dates last. -/
def key4 (s : SRow) : Nat × Int × Nat × Int :=
  (typeRankNum s.match_type, -(s.match_score : Int), dateFlag s.row.date, dateNeg s.row.date)

/-- Lexicographic comparison of relevance keys. -/
def lex4R (a b : Nat × Int × Nat × Int) : Prop :=
  a.1 < b.1 ∨
    (a.1 = b.1 ∧ (a.2.1 < b.2.1 ∨
      (a.2.1 = b.2.1 ∧ (a.2.2.1 < b.2.2.1 ∨
        (a.2.2.1 = b.2.2.1 ∧ a.2.2.2 ≤ b.2.2.2)))))

/-- The relevance order on scored rows. -/
def relR (a b : SRow) : Prop := lex4R (key4 a) (key4 b)

instance : DecidableRel newestR := fun a b => by
  unfold newestR; exact inferInstance

instance : DecidableRel relR := fun a b => by
  unfold relR lex4R; exact inferInstance

instance : IsTotal SRow newestR :=
  ⟨by intro a b; unfold newestR; omega⟩

instance : IsTrans SRow newestR :=
  ⟨by intro a b c hab hbc; unfold newestR at *; omega⟩

instance : IsTotal SRow relR :=
  ⟨by intro a b; unfold relR lex4R; omega⟩

instance : IsTrans SRow relR :=
  ⟨by intro a b c hab hbc; unfold relR lex4R at *; omega⟩

/-- backend.py `search_sermons`: filters, two scoring passes, fallback pass,
then the final sort (modelled by a correct sort for the pandas key order:
the claims and the spec constrain only sortedness and membership, and the
pandas default sort is itself unstable). -/
def search_sermons (simP simF : String → String → Nat) (p : Params)
    (df : List Row) : List SRow :=
  if df.isEmpty then []
  else if (combinedResults simP simF p df).isEmpty then combinedResults simP simF p df
  else if p.sort = some "newest" then
    List.insertionSort newestR (combinedResults simP simF p df)
  else List.insertionSort relR (combinedResults simP simF p df)

/-! ### Intent Extractor (backend.py `extract_search_terms`)

The language-model provider is an external collaborator: its outcome is an
`Except Unit String` (an error models a raise or timeout of the call, an `ok`
carries the returned text).  `json.loads` is likewise external: it is a
parameter producing `none` when the text is not valid JSON (the raising
path, caught by the surrounding handler) and otherwise the parsed object,
modelled as an `IntentJson` record whose `none` fields are absent keys. -/

/-- A JSON value in an intent object (only the shapes the prompt requests). -/
inductive JVal where
  | jnull
  | jstr (s : String)
  | jint (n : Int)
deriving DecidableEq

/-- A parsed intent dictionary; a `none` field models an absent key. -/
structure IntentJson where
  keywords : Option JVal
  synonyms : Option JVal
  preacher : Option JVal
  start_date : Option JVal
  end_date : Option JVal
  limit : Option JVal
  sort : Option JVal
deriving DecidableEq

/-- The deterministic fallback intent of `extract_search_terms`. -/
def fallbackIntent (q : String) : IntentJson :=
  { keywords := some (.jstr q), synonyms := some (.jstr ""),
    preacher := some .jnull, start_date := some .jnull, end_date := some .jnull,
    limit := some (.jint 10), sort := some (.jstr "relevance") }

/-- Is every field of the intent record present? -/
def allPresent (r : IntentJson) : Bool :=
  r.keywords.isSome && r.synonyms.isSome && r.preacher.isSome &&
    r.start_date.isSome && r.end_date.isSome && r.limit.isSome && r.sort.isSome

/-- The response clean-up before parsing: drop code-fence markers and strip. -/
def cleanResponse (t : String) : String :=
  pyStrip (pyReplace (pyReplace t "```json" "") "```" "")

/-- backend.py `extract_search_terms`: fall back when no API key is
configured, when the model call raises or times out, or when the cleaned
response fails to parse as JSON; otherwise return the parsed object as-is. -/
def extract_search_terms (jsonParse : String → Option IntentJson)
    (apiKey userQuery : String) (resp : Except Unit String) : IntentJson :=
  if apiKey = "" then fallbackIntent userQuery
  else
    match resp with
    | .error _ => fallbackIntent userQuery
    | .ok txt =>
      match jsonParse (cleanResponse txt) with
      | none => fallbackIntent userQuery
      | some r => r

/-! ### Pagination and display (app.py main loop)

The session memory holds the full ranked result list and an integer cursor.
The load-more interaction (the button block) only exists when the cursor is
still inside the result list; a click emits the next slice of 10 rows and
advances the cursor by 10.  When the cursor has passed the end the block
renders nothing: the interaction is a no-op producing no rows. -/

/-- Python `l[a:b]` for natural bounds. -/
def pySlice (l : List SRow) (a b : Nat) : List SRow := (l.drop a).take (b - a)

/-- The load-more interaction: given the remembered results and cursor,
return the emitted batch and the new cursor. -/
def loadMoreClick (results : List SRow) (idx : Nat) : List SRow × Nat :=
  if idx < results.length then (pySlice results idx (idx + 10), idx + 10)
  else ([], idx)

/-- Python `l[0:n]` for an integer bound `n` (`iloc` slice semantics: a
negative bound drops that many rows from the end). -/
def pyTakeInt (n : Int) (l : List SRow) : List SRow :=
  if 0 ≤ n then l.take n.toNat else l.take (l.length - (-n).toNat)

/-- The display batch of the chat input handler: the first `user_limit` rows
of the ranked results (`user_limit = search_params.get("limit", 10)`). -/
def chatDisplay (lim : Option Int) (results : List SRow) : List SRow :=
  pyTakeInt (lim.getD 10) results

/-- The chat input handler's effect on presentation and session memory:
the displayed batch, and the stored memory (full results, cursor at the
batch size). -/
def chatHandler (lim : Option Int) (results : List SRow) :
    List SRow × (List SRow × Int) :=
  (chatDisplay lim results, (results, lim.getD 10))

/-! ### Spec-side definition for the title-stripping comparison -/

/-- Modelled from the spec: the claimed normalization strips honorific
titles from the candidate "as whole-word prefixes" only.  For each title in
order, if the string starts with the title followed by a space, that prefix
is removed (and the remainder stripped); no other text is touched.  This
definition follows the spec's words, for comparison with the source-derived
`stripTitles`. -/
def stripSpecWW (s : String) : String :=
  titles.foldl
    (fun acc ti =>
      if leadsWith (ti ++ " ").data acc.data then
        pyStrip ⟨acc.data.drop (ti.length + 1)⟩
      else acc) s

/-! ### Concrete executable instantiations of the external functions,
used by the witnesses. -/

/-- A concrete fuzzy metric in the partial-similarity role: 100 when the
(nonempty) needle occurs inside the haystack, else 0.  Values lie on the
0-100 scale. -/
def simP_c (a b : String) : Nat :=
  if a ≠ "" ∧ occursIn a.data b.data then 100 else 0

/-- A concrete fuzzy metric in the full-similarity role: 100 on equal
strings, else 0. -/
def simF_c (a b : String) : Nat := if a = b then 100 else 0

/-- A concrete parse outcome modelling `json.loads` on the well-formed
response text `{"limit": 0}`: an object carrying only a `limit` key. -/
def jsonParsePartialObj : String → Option IntentJson :=
  fun _ => some { keywords := none, synonyms := none, preacher := none,
                  start_date := none, end_date := none,
                  limit := some (.jint 0), sort := none }

/-- Head and last character of a string are non-whitespace (or the string is
empty): the condition under which Python `strip` is the identity. -/
def noWsEnds (s : String) : Bool :=
  s.data.head?.all (fun c => !wsB c) && s.data.getLast?.all (fun c => !wsB c)

/-! ### Concrete fixtures used by the witnesses -/

/-- A two-row catalog: a faith-titled talk by Pastor Seun and a hope-titled
talk by Apostle Segun. -/
def dfW : List Row :=
  [ { idx := 0, title := "Faith Walk", preacher := "Pastor Seun", date := some 10 },
    { idx := 1, title := "Hope Rising", preacher := "Apostle Segun", date := some 20 } ]

/-- Keyword/synonym intent: keywords "faith", synonyms "hope". -/
def pKW : Params :=
  { keywords := some "faith", synonyms := some "hope", preacher := none,
    start_date := none, end_date := none, limit := none, sort := none }

/-- Filter-only intent: no keywords, preacher "Seun". -/
def pFilt : Params :=
  { keywords := none, synonyms := none, preacher := some "Seun",
    start_date := none, end_date := none, limit := none, sort := none }

/-- A three-row catalog with one missing date, for the sort witnesses. -/
def df4W : List Row :=
  [ { idx := 0, title := "faith a", preacher := "x", date := some 10 },
    { idx := 1, title := "faith b", preacher := "y", date := none },
    { idx := 2, title := "hope c", preacher := "z", date := some 30 } ]

/-- Two-topic intent sorted by newest. -/
def pNew : Params :=
  { keywords := some "faith, hope", synonyms := none, preacher := none,
    start_date := none, end_date := none, limit := none, sort := some "newest" }

/-- Two-topic intent sorted by relevance (no sort field). -/
def pRel : Params :=
  { keywords := some "faith, hope", synonyms := none, preacher := none,
    start_date := none, end_date := none, limit := none, sort := none }

/-- The scored row the Exact pass produces from the first row of `dfW`. -/
def sW : SRow :=
  { row := { idx := 0, title := "Faith Walk", preacher := "Pastor Seun", date := some 10 },
    match_score := 100, match_type := "Exact" }

/-- The scored row the Suggested pass produces from the second row of `dfW`. -/
def sgW : SRow :=
  { row := { idx := 1, title := "Hope Rising", preacher := "Apostle Segun", date := some 20 },
    match_score := 100, match_type := "Suggested" }

/-- A generic scored row for pagination fixtures. -/
def rowW : SRow :=
  { row := { idx := 0, title := "t", preacher := "p", date := some 1 },
    match_score := 100, match_type := "Exact" }

/-- A ranked result set of 22 rows: 21 Exact rows followed by one Suggested
row (combined count exceeds 20 and contains a Suggested record). -/
def rsC8 : List SRow :=
  List.replicate 21 rowW ++
    [{ row := { idx := 21, title := "t", preacher := "p", date := some 1 },
       match_score := 90, match_type := "Suggested" }]

/-! ## Supporting lemmas -/

theorem replFuel_of_not_occurs {old : List Char} (new : List Char) :
    ∀ (fuel : Nat) (s : List Char), occursIn old s = false → replFuel fuel old new s = s := by
  intro fuel
  induction fuel with
  | zero => intro s _; rfl
  | succ n ih =>
    intro s h
    cases s with
    | nil => rfl
    | cons c rest =>
      unfold occursIn at h
      simp only [Bool.or_eq_false_iff] at h
      show (if leadsWith old (c :: rest) = true then
          new ++ replFuel n old new (List.drop (old.length - 1) rest)
        else c :: replFuel n old new rest) = c :: rest
      rw [h.1]
      simp only [Bool.false_eq_true, if_false]
      rw [ih rest h.2]

theorem pyReplace_of_not_occurs {s old : String} (new : String)
    (h : occursIn old.data s.data = false) : pyReplace s old new = s := by
  unfold pyReplace
  split
  · rfl
  · rw [replFuel_of_not_occurs _ _ _ h]

theorem dropWhile_of_head {p : Char → Bool} {l : List Char}
    (h : l.head?.all (fun c => !p c) = true) : l.dropWhile p = l := by
  cases l with
  | nil => rfl
  | cons c cs =>
    simp only [List.head?_cons, Option.all_some, Bool.not_eq_true'] at h
    simp [List.dropWhile_cons, h]

theorem pyStripL_of_noWsEnds {l : List Char}
    (h1 : l.head?.all (fun c => !wsB c) = true)
    (h2 : l.getLast?.all (fun c => !wsB c) = true) : pyStripL l = l := by
  unfold pyStripL
  rw [dropWhile_of_head h1]
  rw [dropWhile_of_head (by rw [List.head?_reverse]; exact h2)]
  exact List.reverse_reverse l

theorem pyStrip_of_noWsEnds {s : String} (h : noWsEnds s = true) : pyStrip s = s := by
  unfold noWsEnds at h
  simp only [Bool.and_eq_true] at h
  unfold pyStrip
  rw [pyStripL_of_noWsEnds h.1 h.2]

theorem replFuel_erase_sublist {old : List Char} :
    ∀ (fuel : Nat) (s : List Char), (replFuel fuel old [] s).Sublist s := by
  intro fuel
  induction fuel with
  | zero => intro s; exact List.Sublist.refl s
  | succ n ih =>
    intro s
    cases s with
    | nil => exact List.Sublist.refl []
    | cons c rest =>
      show (if leadsWith old (c :: rest) = true then
          [] ++ replFuel n old [] (List.drop (old.length - 1) rest)
        else c :: replFuel n old [] rest).Sublist (c :: rest)
      split
      · simp only [List.nil_append]
        exact ((ih _).trans (List.drop_sublist _ _)).trans (List.sublist_cons_self c rest)
      · exact (ih rest).cons₂ c

theorem pyStripL_sublist (l : List Char) : (pyStripL l).Sublist l := by
  unfold pyStripL
  have h1 : ((((l.dropWhile wsB).reverse.dropWhile wsB)).reverse).Sublist
      ((l.dropWhile wsB).reverse.reverse) :=
    (List.dropWhile_sublist wsB).reverse
  rw [List.reverse_reverse] at h1
  exact h1.trans (List.dropWhile_sublist wsB)

theorem pyStrip_data_sublist (s : String) : (pyStrip s).data.Sublist s.data :=
  pyStripL_sublist s.data

theorem pyReplace_erase_data_sublist (s old : String) :
    (pyReplace s old "").data.Sublist s.data := by
  unfold pyReplace
  split
  · exact List.Sublist.refl _
  · exact replFuel_erase_sublist _ _

theorem stripTitles_fold_data_sublist :
    ∀ (ts : List String) (s : String),
      ((ts.foldl (fun acc ti => pyStrip (pyReplace acc (ti ++ " ") "")) s).data).Sublist s.data := by
  intro ts
  induction ts with
  | nil => intro s; exact List.Sublist.refl _
  | cons t ts ih =>
    intro s
    simp only [List.foldl_cons]
    exact (ih _).trans ((pyStrip_data_sublist _).trans (pyReplace_erase_data_sublist _ _))

theorem stripTitles_fold_of_not_occurs :
    ∀ (ts : List String) (s : String),
      (∀ ti ∈ ts, occursIn (ti ++ " ").data s.data = false) →
      noWsEnds s = true →
      ts.foldl (fun acc ti => pyStrip (pyReplace acc (ti ++ " ") "")) s = s := by
  intro ts
  induction ts with
  | nil => intro s _ _; rfl
  | cons t ts ih =>
    intro s h hws
    simp only [List.foldl_cons]
    rw [pyReplace_of_not_occurs _ (h t (List.mem_cons_self t ts)), pyStrip_of_noWsEnds hws]
    exact ih s (fun ti hti => h ti (List.mem_cons_of_mem t hti)) hws

/-! Scoring lemmas.  `scoreF` names the per-topic accumulation step of
`rowScore` for use in the bound lemmas. -/

theorem foldl_score_le (simP : String → String → Nat) (title : String)
    (hb : ∀ a b, simP a b ≤ 100) :
    ∀ (l : List String) (acc : Nat),
      l.foldl (fun acc t => if 80 < simP t title then acc + simP t title else acc) acc ≤
        acc + 100 * l.length := by
  intro l
  induction l with
  | nil => intro acc; simp
  | cons t ts ih =>
    intro acc
    simp only [List.foldl_cons, List.length_cons]
    have h1 : (if 80 < simP t title then acc + simP t title else acc) ≤ acc + 100 := by
      have := hb t title
      split <;> omega
    calc ts.foldl _ _ ≤ _ + 100 * ts.length := ih _
      _ ≤ acc + 100 * (ts.length + 1) := by omega

theorem foldl_score_zero_or (simP : String → String → Nat) (title : String) :
    ∀ (l : List String) (acc : Nat), (acc = 0 ∨ 81 ≤ acc) →
      (l.foldl (fun acc t => if 80 < simP t title then acc + simP t title else acc) acc = 0 ∨
        81 ≤ l.foldl (fun acc t => if 80 < simP t title then acc + simP t title else acc) acc) := by
  intro l
  induction l with
  | nil => intro acc h; simpa using h
  | cons t ts ih =>
    intro acc h
    simp only [List.foldl_cons]
    apply ih
    split
    · omega
    · exact h

theorem foldl_score_of_count_zero (simP : String → String → Nat) (title : String) :
    ∀ (l : List String),
      l.countP (fun t => decide (80 < simP t title)) = 0 →
      ∀ acc,
        l.foldl (fun acc t => if 80 < simP t title then acc + simP t title else acc) acc = acc := by
  intro l
  induction l with
  | nil => intro _ acc; rfl
  | cons t ts ih =>
    intro h acc
    rw [List.countP_cons] at h
    simp only [List.foldl_cons]
    have h2 : ¬ (80 < simP t title) := by
      by_contra hc
      simp [hc] at h
    simp only [if_neg h2]
    exact ih (by omega) acc

theorem rowScore_pos_81 {simP : String → String → Nat} {topics : List String}
    {title : String} (h : 0 < rowScore simP topics title) :
    81 ≤ rowScore simP topics title := by
  rcases foldl_score_zero_or simP title topics 0 (Or.inl rfl) with h0 | h81
  · unfold rowScore at h; omega
  · exact h81

theorem rowScore_pos_count {simP : String → String → Nat} {topics : List String}
    {title : String} (h : 0 < rowScore simP topics title) :
    0 < matchCountOf simP topics title := by
  by_contra hc
  push_neg at hc
  have hz : topics.countP (fun t => decide (80 < simP t title)) = 0 := by
    unfold matchCountOf at hc
    omega
  have := foldl_score_of_count_zero simP title topics hz 0
  unfold rowScore at h
  omega

/-! Membership lemmas for the scoring passes. -/

theorem score_rows_some_eq (simP : String → String → Nat) (rows : List Row)
    (k : String) (label : String) :
    score_rows simP rows (some k) label =
      if k = "" || pyLower k = "none" then []
      else if (topicListOf k).isEmpty then []
      else
        ((rows.map (fun r =>
            ({ row := r, match_score := rowScore simP (topicListOf k) (pyLower r.title),
               match_type := label } : SRow))).filter
          (fun s => 0 < s.match_score)) := rfl

theorem score_rows_mem {simP : String → String → Nat} {rows : List Row}
    {kw : Option String} {label : String} {s : SRow}
    (h : s ∈ score_rows simP rows kw label) :
    s.match_type = label ∧
      s.match_score = rowScore simP (topicsOfOpt kw) (pyLower s.row.title) ∧
      s.row ∈ rows ∧ 0 < s.match_score := by
  cases kw with
  | none => exact absurd h (List.not_mem_nil s)
  | some k =>
    rw [score_rows_some_eq] at h
    split at h
    · exact absurd h (List.not_mem_nil s)
    · split at h
      · exact absurd h (List.not_mem_nil s)
      · rw [List.mem_filter] at h
        obtain ⟨hmem, hpos⟩ := h
        rw [List.mem_map] at hmem
        obtain ⟨r, hr, hs⟩ := hmem
        subst hs
        refine ⟨rfl, ?_, hr, by simpa using hpos⟩
        have ht : topicsOfOpt (some k) =
            if k = "" || pyLower k = "none" then [] else topicListOf k := rfl
        rw [ht]
        rename_i hblank _
        rw [if_neg hblank]

theorem score_rows_map_sublist (simP : String → String → Nat) (rows : List Row)
    (kw : Option String) (label : String) :
    ((score_rows simP rows kw label).map SRow.row).Sublist rows := by
  cases kw with
  | none => exact List.nil_sublist rows
  | some k =>
    rw [score_rows_some_eq]
    split
    · exact List.nil_sublist rows
    · split
      · exact List.nil_sublist rows
      · rw [List.filter_map, List.map_map]
        have h2 : ∀ l : List Row, List.map (SRow.row ∘ fun r =>
            ({ row := r, match_score := rowScore simP (topicListOf k) (pyLower r.title),
               match_type := label } : SRow)) l = l := by
          intro l
          induction l with
          | nil => rfl
          | cons x xs ih => simpa using ih
        rw [h2]
        exact List.filter_sublist rows

/-! Pipeline lemmas. -/

theorem score_rows_nil (simP : String → String → Nat) (kw : Option String)
    (label : String) : score_rows simP [] kw label = [] := by
  cases kw with
  | none => rfl
  | some k =>
    rw [score_rows_some_eq]
    split
    · rfl
    · split <;> rfl

theorem filteredRows_nil (simP simF : String → String → Nat) (p : Params) :
    filteredRows simP simF p [] = [] := by
  unfold filteredRows
  rcases p.start_date with _ | (_ | sd) <;>
    rcases p.end_date with _ | (_ | ed) <;>
    rcases p.preacher with _ | q <;>
    simp

theorem resultsExact_nil (simP simF : String → String → Nat) (p : Params) :
    resultsExact simP simF p [] = [] := by
  unfold resultsExact
  rw [filteredRows_nil, score_rows_nil]

theorem resultsSuggested_nil (simP simF : String → String → Nat) (p : Params) :
    resultsSuggested simP simF p [] = [] := by
  simp only [resultsSuggested]
  rw [resultsExact_nil, filteredRows_nil, score_rows_nil]
  simp

theorem combined_nil (simP simF : String → String → Nat) (p : Params) :
    combinedResults simP simF p [] = [] := by
  simp only [combinedResults]
  rw [resultsExact_nil, resultsSuggested_nil, filteredRows_nil]
  simp

theorem search_perm_combined (simP simF : String → String → Nat) (p : Params)
    (df : List Row) :
    (search_sermons simP simF p df).Perm (combinedResults simP simF p df) := by
  unfold search_sermons
  split
  · rename_i hdf
    rw [List.isEmpty_iff] at hdf
    subst hdf
    rw [combined_nil]
  · split
    · exact List.Perm.refl _
    · split
      · exact List.perm_insertionSort _ _
      · exact List.perm_insertionSort _ _

theorem suggested_cond {simP simF : String → String → Nat} {p : Params}
    {df : List Row} (h : resultsSuggested simP simF p df ≠ []) :
    (resultsExact simP simF p df).length < 10 ∧ truthyOpt p.synonyms = true := by
  simp only [resultsSuggested] at h
  split at h
  · rename_i hcond
    exact hcond
  · exact absurd rfl h

theorem suggested_mem {simP simF : String → String → Nat} {p : Params}
    {df : List Row} {s : SRow} (h : s ∈ resultsSuggested simP simF p df) :
    s.match_type = "Suggested" ∧
      ∀ e ∈ resultsExact simP simF p df, s.row.idx ≠ e.row.idx := by
  simp only [resultsSuggested] at h
  split at h
  · split at h
    · refine ⟨(score_rows_mem h).1, ?_⟩
      intro e he
      rename_i hex
      rw [List.isEmpty_iff] at hex
      rw [hex] at he
      exact absurd he (List.not_mem_nil e)
    · rw [List.mem_filter] at h
      obtain ⟨hsg, hfil⟩ := h
      refine ⟨(score_rows_mem hsg).1, ?_⟩
      intro e he
      rw [Bool.not_eq_eq_eq_not, Bool.not_true, List.any_eq_false] at hfil
      have := hfil e he
      simp only [beq_iff_eq] at this
      omega
  · exact absurd h (List.not_mem_nil s)

theorem combined_mem {simP simF : String → String → Nat} {p : Params}
    {df : List Row} {a : SRow} (h : a ∈ combinedResults simP simF p df) :
    a ∈ resultsExact simP simF p df ∨ a ∈ resultsSuggested simP simF p df ∨
      (a.match_type = "Exact" ∧ a.match_score = 100 ∧
        a.row ∈ filteredRows simP simF p df ∧
        resultsSuggested simP simF p df = []) := by
  simp only [combinedResults] at h
  split at h
  · rename_i hcond
    rw [List.mem_map] at h
    obtain ⟨r, hr, rfl⟩ := h
    right; right
    refine ⟨rfl, rfl, hr, ?_⟩
    rw [← List.isEmpty_iff]
    exact hcond.2.1
  · rw [List.mem_append] at h
    rcases h with h | h
    · left; exact h
    · right; left; exact h

theorem keywordsBlank_of_claim {k : Option String}
    (hk : k = none ∨ k = some "" ∨ k = some "none") :
    keywordsBlank k = true := by
  rcases hk with h | h | h <;> rw [h] <;> decide

theorem search_sorted_newest {simP simF : String → String → Nat} {p : Params}
    {df : List Row} (hs : p.sort = some "newest") :
    (search_sermons simP simF p df).Sorted newestR := by
  unfold search_sermons
  split
  · exact List.sorted_nil
  · split
    · rename_i hfin
      rw [List.isEmpty_iff] at hfin
      rw [hfin]
      exact List.sorted_nil
    · exact List.sorted_insertionSort newestR _

theorem search_sorted_rel {simP simF : String → String → Nat} {p : Params}
    {df : List Row} (hs : ¬ p.sort = some "newest") :
    (search_sermons simP simF p df).Sorted relR := by
  unfold search_sermons
  split
  · exact List.sorted_nil
  · split
    · rename_i hfin
      rw [List.isEmpty_iff] at hfin
      rw [hfin]
      exact List.sorted_nil
    · exact List.sorted_insertionSort relR _

theorem newestR_date_imp {a b : SRow} (h : newestR a b) :
    b.row.date = none ∨
      ∃ da db, a.row.date = some da ∧ b.row.date = some db ∧ db ≤ da := by
  unfold newestR at h
  cases hb : b.row.date with
  | none => exact Or.inl rfl
  | some db =>
    cases ha : a.row.date with
    | none =>
      rw [ha, hb] at h
      simp only [dateFlag, dateNeg] at h
      exfalso
      omega
    | some da =>
      refine Or.inr ⟨da, db, rfl, rfl, ?_⟩
      rw [ha, hb] at h
      simp only [dateFlag, dateNeg] at h
      omega

theorem relR_date_imp {a b : SRow} (h : relR a b) (hty : a.match_type = b.match_type)
    (hsc : a.match_score = b.match_score) :
    b.row.date = none ∨
      ∃ da db, a.row.date = some da ∧ b.row.date = some db ∧ db ≤ da := by
  unfold relR lex4R key4 at h
  rw [hty, hsc] at h
  cases hb : b.row.date with
  | none => exact Or.inl rfl
  | some db =>
    cases ha : a.row.date with
    | none =>
      rw [ha, hb] at h
      simp only [dateFlag, dateNeg] at h
      exfalso
      omega
    | some da =>
      refine Or.inr ⟨da, db, rfl, rfl, ?_⟩
      rw [ha, hb] at h
      simp only [dateFlag, dateNeg] at h
      omega

theorem simP_c_le (a b : String) : simP_c a b ≤ 100 := by
  unfold simP_c
  split <;> omega

/-! ## Claim theorems -/

/-- Claim C1: for every user query, if the language-model call raises or
times out (`resp` is an error), returns unparsable JSON (the parse of the
cleaned response is `none`), or no API credential is configured (`apiKey`
empty), `extract_search_terms` returns exactly the record with keywords =
the user query, synonyms "", preacher/start/end null, limit 10 and sort
"relevance".  The embedding is a total function, so the fallback path
raises nothing to its caller. -/
theorem claim_C1 (jsonParse : String → Option IntentJson)
    (apiKey userQuery : String) (resp : Except Unit String)
    (h : apiKey = "" ∨ resp = Except.error () ∨
      ∃ txt, resp = Except.ok txt ∧ jsonParse (cleanResponse txt) = none) :
    extract_search_terms jsonParse apiKey userQuery resp =
      { keywords := some (.jstr userQuery), synonyms := some (.jstr ""),
        preacher := some .jnull, start_date := some .jnull, end_date := some .jnull,
        limit := some (.jint 10), sort := some (.jstr "relevance") } := by
  unfold extract_search_terms
  rcases h with h | h | ⟨txt, hr, hp⟩
  · rw [if_pos h]
    rfl
  · subst h
    split
    · rfl
    · rfl
  · subst hr
    split
    · rfl
    · show (match jsonParse (cleanResponse txt) with
        | none => fallbackIntent userQuery
        | some r => r) = _
      rw [hp]
      rfl

/-- Witness for C1: a concrete run with no credential and a raising model
call returns the concrete fallback record. -/
theorem claim_C1_witness :
    extract_search_terms (fun _ => none) "" "hello" (Except.error ()) =
      { keywords := some (.jstr "hello"), synonyms := some (.jstr ""),
        preacher := some .jnull, start_date := some .jnull, end_date := some .jnull,
        limit := some (.jint 10), sort := some (.jstr "relevance") } :=
  claim_C1 (fun _ => none) "" "hello" (Except.error ()) (Or.inl rfl)

/-- Claim C5, amended: on any failure of the model path the record handed on
is the fully populated fallback (every field present, limit 10, sort
"relevance"); but a response that parses as JSON is returned exactly as
parsed, without validation or coercion of any field, so missing or
malformed fields (including a non-positive limit) reach the pipeline, which
applies its defaults at each field lookup instead. -/
theorem claim_C5 (jsonParse : String → Option IntentJson)
    (apiKey userQuery : String) (resp : Except Unit String) :
    allPresent (fallbackIntent userQuery) = true ∧
      (extract_search_terms jsonParse apiKey userQuery resp = fallbackIntent userQuery ∨
        ∃ txt, resp = Except.ok txt ∧
          jsonParse (cleanResponse txt) =
            some (extract_search_terms jsonParse apiKey userQuery resp)) := by
  refine ⟨rfl, ?_⟩
  unfold extract_search_terms
  by_cases hk : apiKey = ""
  · rw [if_pos hk]
    exact Or.inl rfl
  · rw [if_neg hk]
    cases resp with
    | error e => exact Or.inl rfl
    | ok txt =>
      cases hp : jsonParse (cleanResponse txt) with
      | none =>
        left
        show (match jsonParse (cleanResponse txt) with
          | none => fallbackIntent userQuery
          | some r => r) = _
        rw [hp]
      | some r =>
        right
        refine ⟨txt, rfl, ?_⟩
        show jsonParse (cleanResponse txt) =
          some (match jsonParse (cleanResponse txt) with
            | none => fallbackIntent userQuery
            | some r => r)
        rw [hp]

/-- Counterexample for C5 as stated: the model answers with the well-formed
JSON object `{"limit": 0}`; the record handed to the pipeline has its sort
field absent and its limit equal to 0 — not a positive integer, and not the
documented default — so the record is partially absent. -/
theorem claim_C5_counterexample :
    (extract_search_terms jsonParsePartialObj "key" "q"
        (Except.ok "\x7b\"limit\": 0\x7d")).sort = none ∧
      (extract_search_terms jsonParsePartialObj "key" "q"
        (Except.ok "\x7b\"limit\": 0\x7d")).limit = some (.jint 0) ∧
      allPresent (extract_search_terms jsonParsePartialObj "key" "q"
        (Except.ok "\x7b\"limit\": 0\x7d")) = false := by
  refine ⟨rfl, rfl, rfl⟩

/-- Claim C6: the load-more interaction returns the slice
`results[cursor : cursor+10]` and advances the cursor by the page size; when
the cursor has reached the end it is a no-op returning an empty batch
without error; on a result set of length 23 successive calls from cursor 0
return batches of lengths 10, 10, 3 and then 0. -/
theorem claim_C6 (results : List SRow) (idx : Nat) :
    (idx < results.length →
      loadMoreClick results idx = ((results.drop idx).take 10, idx + 10)) ∧
    (results.length ≤ idx → loadMoreClick results idx = ([], idx)) ∧
    (results.length = 23 →
      (loadMoreClick results 0).1.length = 10 ∧ (loadMoreClick results 0).2 = 10 ∧
      (loadMoreClick results 10).1.length = 10 ∧ (loadMoreClick results 10).2 = 20 ∧
      (loadMoreClick results 20).1.length = 3 ∧ (loadMoreClick results 20).2 = 30 ∧
      (loadMoreClick results 30).1 = [] ∧ (loadMoreClick results 30).2 = 30) := by
  refine ⟨?_, ?_, ?_⟩
  · intro h
    unfold loadMoreClick pySlice
    rw [if_pos h]
    have h10 : idx + 10 - idx = 10 := by omega
    rw [h10]
  · intro h
    unfold loadMoreClick
    rw [if_neg (by omega)]
  · intro h23
    have g1 : loadMoreClick results 0 = ((results.drop 0).take 10, 10) := by
      unfold loadMoreClick pySlice
      rw [if_pos (by omega)]
    have g2 : loadMoreClick results 10 = ((results.drop 10).take 10, 20) := by
      unfold loadMoreClick pySlice
      rw [if_pos (by omega)]
    have g3 : loadMoreClick results 20 = ((results.drop 20).take 10, 30) := by
      unfold loadMoreClick pySlice
      rw [if_pos (by omega)]
    have g4 : loadMoreClick results 30 = ([], 30) := by
      unfold loadMoreClick
      rw [if_neg (by omega)]
    rw [g1, g2, g3, g4]
    refine ⟨?_, rfl, ?_, rfl, ?_, rfl, rfl, rfl⟩ <;>
      · show (List.take 10 _).length = _
        simp only [List.length_take, List.length_drop, h23]
        omega

/-- Witness for C6: the 23-row scenario at a concrete result set. -/
theorem claim_C6_witness :
    (loadMoreClick (List.replicate 23 rowW) 20).1.length = 3 ∧
      (loadMoreClick (List.replicate 23 rowW) 30).1 = [] :=
  ⟨((claim_C6 (List.replicate 23 rowW) 0).2.2 (by simp)).2.2.2.2.1,
   ((claim_C6 (List.replicate 23 rowW) 0).2.2 (by simp)).2.2.2.2.2.2.1⟩

/-- Claim C7, amended: both strings are lowercased and only the candidate is
title-stripped (the query is merely lowercased and whitespace-trimmed), but
the stripping removes every occurrence of a title followed by a space
anywhere in the candidate — not only whole-word prefixes — so title text
inside a longer word is removed whenever a space follows it (for example
"min " inside "Benjamin Smith").  A candidate containing no title-plus-space
occurrence (and no surrounding whitespace) is left untouched, and stripping
only ever deletes characters. -/
theorem claim_C7 :
    (∀ dbName : String,
      (∀ ti ∈ titles, occursIn (ti ++ " ").data (pyLower dbName).data = false) →
      noWsEnds (pyLower dbName) = true →
      t_cleanOf dbName = pyLower dbName) ∧
    (∀ dbName : String, ((t_cleanOf dbName).data).Sublist (pyLower dbName).data) ∧
    (∀ query : String, qRawOf query = pyStrip (pyLower query)) ∧
    t_cleanOf "Benjamin Smith" = "benjasmith" := by
  refine ⟨?_, ?_, fun _ => rfl, by decide⟩
  · intro t h hws
    exact stripTitles_fold_of_not_occurs titles (pyLower t) h hws
  · intro t
    exact stripTitles_fold_data_sublist titles (pyLower t)

/-- Witness for C7 (amended): a candidate with no title occurrence is left
exactly as its lowercase form. -/
theorem claim_C7_witness : t_cleanOf "John Doe" = pyLower "John Doe" :=
  claim_C7.1 "John Doe" (by decide) (by decide)

/-- Counterexample for C7 as stated: on the candidate "Benjamin Smith" the
code's normalization deletes the title text "min " inside the word
"Benjamin", producing "benjasmith", whereas whole-word-prefix stripping (the
claim's description, `stripSpecWW`) leaves "benjamin smith" unchanged. -/
theorem claim_C7_counterexample :
    t_cleanOf "Benjamin Smith" = "benjasmith" ∧
      stripSpecWW (pyLower "Benjamin Smith") = "benjamin smith" ∧
      t_cleanOf "Benjamin Smith" ≠ stripSpecWW (pyLower "Benjamin Smith") := by
  refine ⟨by decide, by decide, by decide⟩

/-- Claim C8, amended: the chat handler's displayed set is simply the first
`user_limit` rows of the ranked order (`limit` from the intent, default 10),
with no Suggested-specific truncation at 20; the session memory retains the
full ranked result set (so the authoritative order is not discarded), with
the cursor at the batch size. -/
theorem claim_C8 (lim : Option Int) (results : List SRow) :
    (chatHandler lim results).2.1 = results ∧
      ((chatDisplay lim results).Sublist results) ∧
      (0 ≤ lim.getD 10 →
        (chatDisplay lim results).length = min (lim.getD 10).toNat results.length) := by
  refine ⟨rfl, ?_, ?_⟩
  · unfold chatDisplay pyTakeInt
    split
    · exact List.take_sublist _ _
    · exact List.take_sublist _ _
  · intro h
    unfold chatDisplay pyTakeInt
    rw [if_pos h]
    exact List.length_take _ _

/-- Witness for C8 (amended): a concrete display of the first 5 rows of the
22-row fixture. -/
theorem claim_C8_witness :
    (chatHandler (some 5) rsC8).2.1 = rsC8 ∧
      (chatDisplay (some 5) rsC8).length = min (Int.toNat 5) rsC8.length :=
  ⟨(claim_C8 (some 5) rsC8).1, (claim_C8 (some 5) rsC8).2.2 (by decide)⟩

/-- Counterexample for C8 as stated: `rsC8` has 22 rows (more than 20) and
contains a Suggested row, yet with `limit = 30` the displayed batch contains
1 Suggested row, not `max(0, 20 - exactCount) = max(0, 20 - 21) = 0` — the
claimed Suggested truncation does not exist in the display path. -/
theorem claim_C8_counterexample :
    20 < rsC8.length ∧
      0 < (rsC8.filter (fun s => s.match_type == "Suggested")).length ∧
      (((chatDisplay (some 30) rsC8).filter
          (fun s => s.match_type == "Suggested")).length : Int) ≠
        max 0 (20 - ((rsC8.filter (fun s => s.match_type == "Exact")).length : Int)) := by
  refine ⟨by decide, by decide, by decide⟩

/-- Claim C9: the Scoring Engine is pure and order-preserving: its output's
underlying rows form a subsequence of the input (input order, no invention
of rows, input unmodified), and every output record's stamped fields are
functions of that record's own title and the query alone — the match type is
the given label, the match score is `rowScore` of the cleaned topic list
against the record's lowercased title, and at least one topic cleared the
threshold.  Re-scoring the same input therefore reproduces exactly the same
match scores, match counts and match types. -/
theorem claim_C9 (simP : String → String → Nat) (rows : List Row)
    (kw : Option String) (label : String) :
    ((score_rows simP rows kw label).map SRow.row).Sublist rows ∧
      (∀ s ∈ score_rows simP rows kw label,
        s.match_type = label ∧
          s.match_score = rowScore simP (topicsOfOpt kw) (pyLower s.row.title) ∧
          0 < matchCountOf simP (topicsOfOpt kw) (pyLower s.row.title)) := by
  refine ⟨score_rows_map_sublist _ _ _ _, ?_⟩
  intro s hs
  obtain ⟨h1, h2, _, h4⟩ := score_rows_mem hs
  exact ⟨h1, h2, rowScore_pos_count (h2 ▸ h4)⟩

/-- Witness for C9 at the concrete catalog `dfW` and keyword "faith". -/
theorem claim_C9_witness :
    ((score_rows simP_c dfW (some "faith") "Exact").map SRow.row).Sublist dfW ∧
      (sW.match_type = "Exact" ∧
        sW.match_score = rowScore simP_c (topicsOfOpt (some "faith")) (pyLower sW.row.title) ∧
        0 < matchCountOf simP_c (topicsOfOpt (some "faith")) (pyLower sW.row.title)) :=
  ⟨(claim_C9 simP_c dfW (some "faith") "Exact").1,
   (claim_C9 simP_c dfW (some "faith") "Exact").2 sW (by decide)⟩

/-- Claim C10: with the fuzzy metric on the 0-100 scale, every record the
Scoring Engine returns has a match score that is a sum of per-topic values
each strictly above 80, hence between 81 and 100 times the size of the
cleaned topic list; zero-score records are excluded. -/
theorem claim_C10 (simP : String → String → Nat) (rows : List Row)
    (kw : Option String) (label : String) (hb : ∀ a b, simP a b ≤ 100) :
    ∀ s ∈ score_rows simP rows kw label,
      81 ≤ s.match_score ∧ s.match_score ≤ 100 * (topicsOfOpt kw).length := by
  intro s hs
  obtain ⟨_, h2, _, h4⟩ := score_rows_mem hs
  constructor
  · rw [h2]
    exact rowScore_pos_81 (h2 ▸ h4)
  · rw [h2]
    unfold rowScore
    have := foldl_score_le simP (pyLower s.row.title) hb (topicsOfOpt kw) 0
    omega

/-- Witness for C10 at the concrete catalog `dfW` and keyword "faith". -/
theorem claim_C10_witness :
    81 ≤ sW.match_score ∧
      sW.match_score ≤ 100 * (topicsOfOpt (some "faith")).length :=
  claim_C10 simP_c dfW (some "faith") "Exact" simP_c_le sW (by decide)

/-- Claim C2: the Suggested pass runs only when the Exact pass yielded fewer
than 10 records and the synonyms string is non-empty; every record already
present in the Exact pass (same pandas index) is removed from the Suggested
results; and consequently no record appears both as an Exact and as a
Suggested entry of one final result set. -/
theorem claim_C2 (simP simF : String → String → Nat) (p : Params) (df : List Row) :
    (resultsSuggested simP simF p df ≠ [] →
      (resultsExact simP simF p df).length < 10 ∧ truthyOpt p.synonyms = true) ∧
    (∀ s ∈ resultsSuggested simP simF p df, ∀ e ∈ resultsExact simP simF p df,
      s.row.idx ≠ e.row.idx) ∧
    (∀ a ∈ search_sermons simP simF p df, ∀ b ∈ search_sermons simP simF p df,
      a.match_type = "Exact" → b.match_type = "Suggested" → a.row.idx ≠ b.row.idx) := by
  refine ⟨fun h => suggested_cond h, ?_, ?_⟩
  · intro s hs e he
    exact (suggested_mem hs).2 e he
  · intro a ha b hb hA hB
    have hma : a ∈ combinedResults simP simF p df :=
      (search_perm_combined simP simF p df).mem_iff.mp ha
    have hmb : b ∈ combinedResults simP simF p df :=
      (search_perm_combined simP simF p df).mem_iff.mp hb
    rcases combined_mem hmb with hbE | hbS | hbF
    · have hlab := (score_rows_mem hbE).1
      rw [hB] at hlab
      exact absurd hlab (by decide)
    · rcases combined_mem hma with haE | haS | haF
      · have hne := (suggested_mem hbS).2 a haE
        omega
      · have hlab := (suggested_mem haS).1
        rw [hA] at hlab
        exact absurd hlab (by decide)
      · rw [haF.2.2.2] at hbS
        exact absurd hbS (List.not_mem_nil b)
    · have hlab := hbF.1
      rw [hB] at hlab
      exact absurd hlab (by decide)

/-- Witness for C2: on `dfW` with keywords "faith" and synonyms "hope",
the Exact pass has one record so the Suggested pass runs, and the Exact and
Suggested records carry distinct indices both pass-wise and in the final
ranked set. -/
theorem claim_C2_witness :
    ((resultsExact simP_c simF_c pKW dfW).length < 10 ∧
      truthyOpt pKW.synonyms = true) ∧
      sgW.row.idx ≠ sW.row.idx ∧ sW.row.idx ≠ sgW.row.idx :=
  ⟨(claim_C2 simP_c simF_c pKW dfW).1 (by decide),
   (claim_C2 simP_c simF_c pKW dfW).2.1 sgW (by decide) sW (by decide),
   (claim_C2 simP_c simF_c pKW dfW).2.2 sW (by decide) sgW (by decide) rfl rfl⟩

/-- Claim C3: when the keywords are empty, null, or the literal "none" and
both scoring passes are empty, the pipeline returns exactly the date- and
speaker-filtered records, each stamped matchType "Exact" and matchScore 100;
in particular the result is non-empty whenever the filters matched records. -/
theorem claim_C3 (simP simF : String → String → Nat) (p : Params) (df : List Row)
    (hk : p.keywords = none ∨ p.keywords = some "" ∨ p.keywords = some "none")
    (hex : resultsExact simP simF p df = [])
    (hsg : resultsSuggested simP simF p df = []) :
    (search_sermons simP simF p df).Perm
      ((filteredRows simP simF p df).map
        (fun r => { row := r, match_score := 100, match_type := "Exact" })) ∧
    (∀ s ∈ search_sermons simP simF p df,
      s.match_type = "Exact" ∧ s.match_score = 100) ∧
    (filteredRows simP simF p df ≠ [] → search_sermons simP simF p df ≠ []) := by
  have hcomb : combinedResults simP simF p df =
      (filteredRows simP simF p df).map
        (fun r => { row := r, match_score := 100, match_type := "Exact" }) := by
    simp only [combinedResults]
    rw [hex, hsg]
    rw [if_pos ⟨rfl, rfl, keywordsBlank_of_claim hk⟩]
  have hperm := search_perm_combined simP simF p df
  rw [hcomb] at hperm
  refine ⟨hperm, ?_, ?_⟩
  · intro s hs
    have hmem := hperm.mem_iff.mp hs
    rw [List.mem_map] at hmem
    obtain ⟨r, _, rfl⟩ := hmem
    exact ⟨rfl, rfl⟩
  · intro hne hnil
    rw [hnil] at hperm
    have hmap := hperm.symm.eq_nil
    rw [List.map_eq_nil_iff] at hmap
    exact hne hmap

/-- Witness for C3: the filter-only query "Seun" with null keywords on `dfW`
returns exactly the one filtered record, hence a non-empty result. -/
theorem claim_C3_witness :
    (search_sermons simP_c simF_c pFilt dfW).Perm
      ((filteredRows simP_c simF_c pFilt dfW).map
        (fun r => { row := r, match_score := 100, match_type := "Exact" })) ∧
      search_sermons simP_c simF_c pFilt dfW ≠ [] :=
  ⟨(claim_C3 simP_c simF_c pFilt dfW (Or.inl rfl) (by decide) (by decide)).1,
   (claim_C3 simP_c simF_c pFilt dfW (Or.inl rfl) (by decide) (by decide)).2.2
     (by decide)⟩

/-- Claim C4: the final sort.  With sort "newest" the result is ordered by
date descending only (missing dates last) and is a permutation of the
combined results; otherwise it is ordered by match-type rank ascending,
match score descending, then date descending with missing dates last — so
among records of equal match type and score, a record with the later date
comes first, and a dated record never follows an undated one. -/
theorem claim_C4 (simP simF : String → String → Nat) (p : Params) (df : List Row) :
    (p.sort = some "newest" →
      (search_sermons simP simF p df).Sorted newestR ∧
      (search_sermons simP simF p df).Perm (combinedResults simP simF p df) ∧
      (search_sermons simP simF p df).Pairwise
        (fun a b => b.row.date = none ∨
          ∃ da db, a.row.date = some da ∧ b.row.date = some db ∧ db ≤ da)) ∧
    (¬ p.sort = some "newest" →
      (search_sermons simP simF p df).Sorted relR ∧
      (search_sermons simP simF p df).Perm (combinedResults simP simF p df) ∧
      (search_sermons simP simF p df).Pairwise
        (fun a b => a.match_type = b.match_type → a.match_score = b.match_score →
          (b.row.date = none ∨
            ∃ da db, a.row.date = some da ∧ b.row.date = some db ∧ db ≤ da))) := by
  constructor
  · intro hs
    have hst : (search_sermons simP simF p df).Pairwise newestR :=
      search_sorted_newest hs
    exact ⟨hst, search_perm_combined simP simF p df,
      hst.imp (fun h => newestR_date_imp h)⟩
  · intro hs
    have hst : (search_sermons simP simF p df).Pairwise relR :=
      search_sorted_rel hs
    exact ⟨hst, search_perm_combined simP simF p df,
      hst.imp (fun h hty hsc => relR_date_imp h hty hsc)⟩

/-- Witness for C4: concrete sorted outputs for a newest-sorted and a
relevance-sorted query over a catalog with a missing date. -/
theorem claim_C4_witness :
    (search_sermons simP_c simF_c pNew df4W).Sorted newestR ∧
      (search_sermons simP_c simF_c pRel df4W).Sorted relR :=
  ⟨((claim_C4 simP_c simF_c pNew df4W).1 rfl).1,
   ((claim_C4 simP_c simF_c pRel df4W).2 (by decide)).1⟩

end SermonSearch
